import Mathlib

/-!
Verification development for the slex lexer generator.

The definitions below are a shallow embedding of the TypeScript source:
strings are `List Char`, the mutable scan offset is explicit state
passing, JS `Map` environments are insertion-ordered association lists,
and every loop whose bound is not structural carries an explicit fuel
argument (`none` means the computation did not finish within the fuel,
faithfully exposing source-level non-termination).
-/

set_option maxHeartbeats 1000000

universe u v

/-- A string transformer attached to a rule root (`StringTransformer` in the source). -/
def Transformer : Type := List Char → List Char

/-- The modifiers of `RegexGroupingNode` (enum `RegexGroupingNodeModifiers` in internal.ts). -/
inductive RegexGroupingNodeModifiers : Type where
  | NONE
  | NONE_OR_MORE
  | ONE_OR_MORE

/-- The regex AST of internal.ts. One constructor per node class.
`intrinsic` — Modelled from the spec: the class `RegexIntrinsicNode` is imported by the
scanner source file but its definition is not under src/; per spec §4.3 it is a
built-in single-character class: it matches `{remainder[0]}` when the predicate holds
on the first character of the remainder, else `{}` (and `{}` on an empty remainder,
matching the constructed intrinsics, whose predicates all reject the empty `charAt`). -/
inductive RegexNode : Type where
  | literal (ch : Char)
  | concatenation (nodes : List RegexNode)
  | either (nodes : List RegexNode)
  | variableNode (variableName : String)
  | grouping (internalNode : RegexNode) (modifier : RegexGroupingNodeModifiers)
  | intrinsic (name : String) (pred : Char → Bool)

/-- A rule-root node together with the two optional attributes the source stores as
mutable fields on `RegexNode` (`emit`, set by `setTokenType`, and `transformer`,
set by `setTransformer`); they are only ever set on environment roots, so the
embedding keeps them beside the node in the environment entry. -/
structure RuleEntry (T : Type u) : Type u where
  node : RegexNode
  emit : Option T
  transformer : Option Transformer

/-- The rule environment: a JS `Map<string, RegexNode>` as an insertion-ordered
association list. -/
abbrev Env (T : Type u) : Type u := List (String × RuleEntry T)

/-- `environment.has(name)` / `environment.get(name)`: first entry with the key. -/
def envGet {T : Type u} : Env T → String → Option (RuleEntry T)
  | [], _ => none
  | (k, v) :: more, name => if k = name then some v else envGet more name

/-- JS `s.replace(pat, "")`: removes the first occurrence of `pat` in `s`
(`s` unchanged when there is none; removal at index 0 when `pat` is empty). -/
def jsReplaceFirst : List Char → List Char → List Char
  | [], pat => if pat.isPrefixOf [] then ([] : List Char).drop pat.length else []
  | c :: cs, pat =>
    if pat.isPrefixOf (c :: cs) then (c :: cs).drop pat.length
    else c :: jsReplaceFirst cs pat

mutual

/-- `RegexNode.getMatches` from internal.ts, by node class; `fuel` bounds the total
number of evaluation steps (`none` = not finished within `fuel`). -/
def getMatches {T : Type u} : Nat → Env T → RegexNode → List Char → Option (List (List Char))
  | 0, _, _, _ => none
  | n + 1, env, node, restString =>
    match node with
    | .literal ch =>
      -- RegexLiteralNode.getMatches
      match restString with
      | [] => some []
      | starting :: _ => some (if starting = ch then [[starting]] else [])
    | .concatenation nodes =>
      -- RegexConcatenationNode.getMatches: caches start as [""]
      concatGo n env nodes restString [[]]
    | .either nodes =>
      -- RegexEitherNode.getMatches
      eitherGo n env nodes restString
    | .variableNode variableName =>
      -- RegexVariableNode.getMatches
      match envGet env variableName with
      | none => some []
      | some entry => getMatches n env entry.node restString
    | .grouping internalNode modifier =>
      -- RegexGroupingNode.getMatches
      match getMatches n env internalNode restString with
      | none => none
      | some [] =>
        some (match modifier with
          | .NONE_OR_MORE => [[]]
          | _ => [])
      | some (m :: ms) =>
        match modifier with
        | .NONE => some (m :: ms)
        | _ => groupLoop n env internalNode restString (m :: ms)
    | .intrinsic _ pred =>
      match restString with
      | [] => some []
      | c :: _ => some (if pred c then [[c]] else [])

/-- The per-child loop of `RegexEitherNode.getMatches`. -/
def eitherGo {T : Type u} : Nat → Env T → List RegexNode → List Char → Option (List (List Char))
  | 0, _, _, _ => none
  | _ + 1, _, [], _ => some []
  | n + 1, env, node :: more, restString =>
    match getMatches n env node restString with
    | none => none
    | some ms =>
      match eitherGo n env more restString with
      | none => none
      | some rest => some (ms ++ rest)

/-- The outer loop of `RegexConcatenationNode.getMatches` (one step per child node). -/
def concatGo {T : Type u} :
    Nat → Env T → List RegexNode → List Char → List (List Char) → Option (List (List Char))
  | 0, _, _, _, _ => none
  | _ + 1, _, [], _, caches => some caches
  | n + 1, env, node :: more, restString, caches =>
    match concatCaches n env node restString caches with
    | none => none
    | some nextCaches => concatGo n env more restString nextCaches

/-- The inner loop of `RegexConcatenationNode.getMatches`: extend every cache by the
child node's matches against `restString.replace(cache, "")`. -/
def concatCaches {T : Type u} :
    Nat → Env T → RegexNode → List Char → List (List Char) → Option (List (List Char))
  | 0, _, _, _, _ => none
  | _ + 1, _, _, _, [] => some []
  | n + 1, env, node, restString, cache :: more =>
    match getMatches n env node (jsReplaceFirst restString cache) with
    | none => none
    | some nextMatches =>
      match concatCaches n env node restString more with
      | none => none
      | some rest => some (nextMatches.map (fun m => cache ++ m) ++ rest)

/-- One extension pass of `RegexGroupingNode.getMatches`'s `while (true)` loop:
for every accepted match, if characters remain after removing it, extend it by the
inner node's matches against the remainder. -/
def groupPass {T : Type u} :
    Nat → Env T → RegexNode → List Char → List (List Char) → Option (List (List Char))
  | 0, _, _, _, _ => none
  | _ + 1, _, _, _, [] => some []
  | n + 1, env, internalNode, restString, m :: more =>
    match jsReplaceFirst restString m with
    | [] => groupPass n env internalNode restString more
    | r =>
      match getMatches n env internalNode r with
      | none => none
      | some nextMatch =>
        match groupPass n env internalNode restString more with
        | none => none
        | some rest => some (nextMatch.map (fun x => m ++ x) ++ rest)

/-- The `while (true)` loop of `RegexGroupingNode.getMatches`: replace the working
set by each non-empty extension pass, stop at the first empty pass. -/
def groupLoop {T : Type u} :
    Nat → Env T → RegexNode → List Char → List (List Char) → Option (List (List Char))
  | 0, _, _, _, _ => none
  | n + 1, env, internalNode, restString, ms =>
    match groupPass n env internalNode restString ms with
    | none => none
    | some [] => some ms
    | some (x :: xs) => groupLoop n env internalNode restString (x :: xs)

end

/-- The character-classification predicates (spec §2 item 1: an external collaborator).
The concrete predicates live in `initializeCharacter` (utils/Character.ts); the
Unicode-category ones are kept abstract here and instantiated per theorem. -/
structure CharClasses : Type where
  isDigit : Char → Bool
  isAlphabetic : Char → Bool
  isAlphabeticUppercase : Char → Bool
  isAlphabeticLowercase : Char → Bool
  isSymbolic : Char → Bool
  isControl : Char → Bool
  isWhitespace : Char → Bool

/-- A concrete ASCII instantiation of the character classes, used to evaluate the
definitions on concrete inputs (`isDigit` and `isWhitespace` are exactly the
`initializeCharacter` defaults; the Unicode-category tests are restricted to ASCII). -/
def asciiClasses : CharClasses where
  isDigit ch := decide ('0' ≤ ch ∧ ch ≤ '9')
  isAlphabetic := Char.isAlpha
  isAlphabeticUppercase := Char.isUpper
  isAlphabeticLowercase := Char.isLower
  isSymbolic ch :=
    decide ((33 ≤ ch.toNat ∧ ch.toNat ≤ 47) ∨ (58 ≤ ch.toNat ∧ ch.toNat ≤ 64)
      ∨ (91 ≤ ch.toNat ∧ ch.toNat ≤ 96) ∨ (123 ≤ ch.toNat ∧ ch.toNat ≤ 126))
  isControl ch := decide (ch.toNat < 32)
  isWhitespace ch := decide (ch ∈ [' ', '\t', '\n', '\r'])

/-- enum `RegexTokenType` in internal.ts. -/
inductive RegexTokenType : Type where
  | LITERAL
  | PIPE
  | ASTERISK
  | PLUS
  | VARIABLE
  | LPAREN
  | RPAREN
deriving DecidableEq

/-- class `RegexToken` in internal.ts. -/
structure RegexToken : Type where
  type : RegexTokenType
  value : List Char
deriving DecidableEq

/-- JS `s.charAt(i)` at positions the source guarantees to be in range. -/
def charAt (s : List Char) (i : Nat) : Char := s.getD i (Char.ofNat 0)

/-- The countdown for the inner `while` of the `${...}` branch of `RegexLexer.lex`:
the loop advances `index` by one per iteration and stops at latest when `index`
reaches the end, so `expression.length - index` steps always suffice. -/
def readVarNameGo (expression : List Char) : Nat → Nat → List Char × Nat
  | 0, index => ([], index)
  | k + 1, index =>
    if h : index < expression.length then
      if expression.get ⟨index, h⟩ = '\x7d' then ([], index)
      else
        let r := readVarNameGo expression k (index + 1)
        (expression.get ⟨index, h⟩ :: r.1, r.2)
    else ([], index)

/-- The inner `while` of the `${...}` branch of `RegexLexer.lex`: read the variable
name up to (excluding) the matching closing brace or the end of the expression;
returns the name and the index it stopped at. -/
def readVarName (expression : List Char) (index : Nat) : List Char × Nat :=
  readVarNameGo expression (expression.length - index) index

/-- `RegexLexer.lex`, one fuel unit per iteration of its `while` loop. On a character
no branch handles, the source logs a message and leaves `this.index` unchanged, so
the loop re-reads the same character forever; the embedding mirrors that by
recursing at the same index (hence returning `none` for every fuel). -/
def lexGo (cc : CharClasses) : Nat → List Char → Nat → List RegexToken → Option (List RegexToken)
  | 0, _, _, _ => none
  | n + 1, expression, index, tokens =>
    if h : index < expression.length then
      let currentCharacter := expression.get ⟨index, h⟩
      if cc.isAlphabetic currentCharacter || cc.isDigit currentCharacter then
        lexGo cc n expression (index + 1) (tokens ++ [⟨.LITERAL, [currentCharacter]⟩])
      else if currentCharacter = '|' then
        lexGo cc n expression (index + 1) (tokens ++ [⟨.PIPE, [currentCharacter]⟩])
      else if currentCharacter = '+' then
        lexGo cc n expression (index + 1) (tokens ++ [⟨.PLUS, [currentCharacter]⟩])
      else if currentCharacter = '*' then
        lexGo cc n expression (index + 1) (tokens ++ [⟨.ASTERISK, [currentCharacter]⟩])
      else if currentCharacter = '(' then
        lexGo cc n expression (index + 1) (tokens ++ [⟨.LPAREN, [currentCharacter]⟩])
      else if currentCharacter = ')' then
        lexGo cc n expression (index + 1) (tokens ++ [⟨.RPAREN, [currentCharacter]⟩])
      else if currentCharacter = '$' then
        if (expression.length > index + 1 ∧ charAt expression (index + 1) ≠ '\x7b')
            ∨ expression.length = index + 2 then
          lexGo cc n expression (index + 2) (tokens ++ [⟨.LITERAL, [charAt expression (index + 1)]⟩])
        else
          if index + 2 = expression.length then
            lexGo cc n expression (index + 2) (tokens ++ [⟨.LITERAL, ['\x7d']⟩])
          else
            let nv := readVarName expression (index + 2)
            lexGo cc n expression (nv.2 + 1) (tokens ++ [⟨.VARIABLE, nv.1⟩])
      else if cc.isWhitespace currentCharacter then
        lexGo cc n expression (index + 1) tokens
      else
        lexGo cc n expression index tokens
    else some tokens

/-- `parse`'s final step: `Either` when more than one alternative was collected,
otherwise the single node itself. -/
def finishPossibles : List RegexNode → RegexNode
  | [x] => x
  | xs => .either xs

/-- `parseConcatenation`'s final step: `Concatenation` when more than one terminal
was collected, otherwise the single node itself. -/
def finishConcatNodes : List RegexNode → RegexNode
  | [x] => x
  | xs => .concatenation xs

mutual

/-- `RegexParser.parse`: a concatenation followed by `('|' Concatenation)*`.
Results: `none` = out of fuel, `some (.error _)` = a thrown parse error (including
the `TypeError` a JS out-of-range token access would raise), `some (.ok (node, i))` =
success with the index of the next unconsumed token. -/
def parseRegex : Nat → List RegexToken → Nat → Option (Except String (RegexNode × Nat))
  | 0, _, _ => none
  | n + 1, tokens, i =>
    match parseConcatenation n tokens i with
    | none => none
    | some (.error e) => some (.error e)
    | some (.ok (first, i1)) => parseRegexLoop n tokens i1 [first]
termination_by structural n _ _ => n

/-- The `while PIPE` loop of `parse`, accumulating `possibles`. -/
def parseRegexLoop : Nat → List RegexToken → Nat → List RegexNode →
    Option (Except String (RegexNode × Nat))
  | 0, _, _, _ => none
  | n + 1, tokens, i, possibles =>
    if h : i < tokens.length then
      if (tokens.get ⟨i, h⟩).type = .PIPE then
        match parseConcatenation n tokens (i + 1) with
        | none => none
        | some (.error e) => some (.error e)
        | some (.ok (nextNode, i')) => parseRegexLoop n tokens i' (possibles ++ [nextNode])
      else some (.ok (finishPossibles possibles, i))
    else some (.ok (finishPossibles possibles, i))
termination_by structural n _ _ _ => n

/-- `RegexParser.parseConcatenation`: one terminal followed by further terminals up
to a `PIPE`, an `RPAREN` or the end of the token list. -/
def parseConcatenation : Nat → List RegexToken → Nat → Option (Except String (RegexNode × Nat))
  | 0, _, _ => none
  | n + 1, tokens, i =>
    match parseTerminal n tokens i with
    | none => none
    | some (.error e) => some (.error e)
    | some (.ok (first, i1)) => parseConcatLoop n tokens i1 [first]
termination_by structural n _ _ => n

/-- The terminal-collecting loop of `parseConcatenation`. -/
def parseConcatLoop : Nat → List RegexToken → Nat → List RegexNode →
    Option (Except String (RegexNode × Nat))
  | 0, _, _, _ => none
  | n + 1, tokens, i, nodes =>
    if h : i < tokens.length then
      if (tokens.get ⟨i, h⟩).type ≠ .PIPE ∧ (tokens.get ⟨i, h⟩).type ≠ .RPAREN then
        match parseTerminal n tokens i with
        | none => none
        | some (.error e) => some (.error e)
        | some (.ok (nextNode, i')) => parseConcatLoop n tokens i' (nodes ++ [nextNode])
      else some (.ok (finishConcatNodes nodes, i))
    else some (.ok (finishConcatNodes nodes, i))
termination_by structural n _ _ _ => n

/-- `RegexParser.parseTerminal`: a parenthesised sub-regex with an optional `*`/`+`
modifier, a literal, or a variable; any other token (or an out-of-range token
access) is an error. -/
def parseTerminal : Nat → List RegexToken → Nat → Option (Except String (RegexNode × Nat))
  | 0, _, _ => none
  | n + 1, tokens, i =>
    match tokens.get? i with
    | none => some (.error "token index out of range")
    | some currentToken =>
      match currentToken.type with
      | .LPAREN =>
        match parseRegex n tokens (i + 1) with
        | none => none
        | some (.error e) => some (.error e)
        | some (.ok (internalNode, i1)) =>
          match tokens.get? i1 with
          | none => some (.error "token index out of range")
          | some tk =>
            if tk.type = .RPAREN then
              match tokens.get? (i1 + 1) with
              | none => some (.error "token index out of range")
              | some tk2 =>
                if tk2.type = .ASTERISK then
                  some (.ok (.grouping internalNode .NONE_OR_MORE, i1 + 2))
                else if tk2.type = .PLUS then
                  some (.ok (.grouping internalNode .ONE_OR_MORE, i1 + 2))
                else some (.ok (.grouping internalNode .NONE, i1 + 1))
            else some (.error "expected RPAREN")
      | .LITERAL => some (.ok (.literal (charAt currentToken.value 0), i + 1))
      | .VARIABLE => some (.ok (.variableNode (String.mk currentToken.value), i + 1))
      | _ => some (.error "was not able to parse the regex")
termination_by structural n _ _ => n

end

/-- `source.split("\n", -1)` from `ColumnAndRow.calculate`. -/
def splitNL : List Char → List (List Char)
  | [] => [[]]
  | c :: cs =>
    if c = '\n' then [] :: splitNL cs
    else
      match splitNL cs with
      | [] => [[c]]
      | h :: t => (c :: h) :: t

/-- The countdown loop of `ColumnAndRow.calculate`. (The source would fault on an
index beyond the whole input; that situation is unreachable from the scanner, and
the embedding then returns the state reached.) -/
def calcGo : Nat → List (List Char) → Nat → Nat × Nat
  | column, [], currentLine => (currentLine, column)
  | column, l :: more, currentLine =>
    if column > l.length then calcGo (column - (l.length + 1)) more (currentLine + 1)
    else (currentLine, column)

/-- `ColumnAndRow.calculate(index, source)`, returning `(row, column)` with the
source's 0-based row (`getActualRow` adds 1) and 0-based column. -/
def calculate (index : Nat) (source : List Char) : Nat × Nat :=
  calcGo index (splitNL source) 0

/-- class `Token` (Token.ts): `line` is `getActualRow()` (1-based), `column` is
`getActualColumn()` (0-based). -/
structure Token (T : Type u) (M : Type v) : Type (max u v) where
  type : T
  lexeme : List Char
  line : Nat
  column : Nat
  metadata : M
deriving DecidableEq

/-- The failure payload of the non-throwing scan API:
`{ success: false; reason; line; column }`. -/
structure ScanError : Type where
  line : Nat
  column : Nat
  reason : String
deriving DecidableEq

/-- `TokenResult<TokenType, Metadata>`: the discriminated union returned by
`tryGetNextToken`. -/
inductive TokenResult (T : Type u) (M : Type v) : Type (max u v) where
  | ok (token : Token T M)
  | err (e : ScanError)
deriving DecidableEq

/-- `SlexOptions` (the caller-supplied configuration; the metadata generator is
passed separately, at `generate` time, as in the source). -/
structure SlexOptions (T : Type u) (M : Type v) : Type (max u v) where
  EOF_TYPE : T
  isHigherPrecedence : T → T → Bool
  whitespaceCharacters : Option (List Char)
  ignoreTokens : Option (List T)

/-- The whitespace set `initializeCharacter` closes over
(`options.whitespace || [" ", "\t", "\n", "\r"]`). -/
def wsOf {T : Type u} {M : Type v} (opts : SlexOptions T M) : List Char :=
  opts.whitespaceCharacters.getD [' ', '\t', '\n', '\r']

/-- The reason string built in the `_tryGetNextToken` failure branch. -/
def mkReason (nextChar : Char) (line column : Nat) : String :=
  "Unexpected character \x27" ++ String.singleton nextChar ++ "\x27 at Line: "
    ++ toString line ++ ", Column: " ++ toString column

/-- The longest-match reduction of `_tryGetNextToken`:
`let longest = ""; for (match of matches) if (match.length > longest.length) ...`. -/
def longestOf (ms : List (List Char)) : List Char :=
  ms.foldl (fun longest m => if m.length > longest.length then m else longest) []

/-- `transformer != null ? transformer(ret.lexeme) : ret.lexeme`. -/
def applyTransformer (tr : Option Transformer) (lexeme : List Char) : List Char :=
  match tr with
  | none => lexeme
  | some f => f lexeme

/-- The winner-selection loop of `_tryGetNextToken` over the environment's entries
(in insertion order). The accumulator mirrors `(ret.lexeme, retNode.getTokenType(),
retNode.getTransformer())`, populated exactly when `ret.success`. Result: `none` =
a `getMatches` call ran out of fuel; `some acc` = the loop completed. -/
def pickGo {T : Type u} (mf : Nat) (isH : T → T → Bool) (env : Env T) (rest : List Char) :
    List (String × RuleEntry T) → Option (List Char × T × Option Transformer) →
    Option (Option (List Char × T × Option Transformer))
  | [], acc => some acc
  | (_, entry) :: more, acc =>
    match entry.emit with
    | none => pickGo mf isH env rest more acc
    | some t =>
      match getMatches mf env entry.node rest with
      | none => none
      | some [] => pickGo mf isH env rest more acc
      | some (m :: ms) =>
        let longest := longestOf (m :: ms)
        match acc with
        | none => pickGo mf isH env rest more (some (longest, t, entry.transformer))
        | some (lex, curT, curTr) =>
          if lex.length < longest.length ∨ (lex.length = longest.length ∧ isH curT t = true) then
            pickGo mf isH env rest more (some (longest, t, entry.transformer))
          else pickGo mf isH env rest more (some (lex, curT, curTr))

/-- The full rule-selection pass of `_tryGetNextToken` starting from
`ret = RegexEngineParsingResult(false, "", null)`. -/
def pickRule {T : Type u} (mf : Nat) (isH : T → T → Bool) (env : Env T) (rest : List Char) :
    Option (Option (List Char × T × Option Transformer)) :=
  pickGo mf isH env rest env none

/-- `RegexEngine._tryGetNextToken` (the scanner core): EOF token at end of input;
otherwise the best rule wins and the offset advances by its lexeme's length; with
no winner, a structured failure is returned and the offset advances by one. -/
def tryGetNextTokenAux {T : Type u} {M : Type v} (mf : Nat) (opts : SlexOptions T M)
    (mg : Unit → M) (env : Env T) (input : List Char) (idx : Nat) :
    Option (TokenResult T M × Nat) :=
  if idx < input.length then
    match pickRule mf opts.isHigherPrecedence env (input.drop idx) with
    | none => none
    | some (some (lexeme, t, tr)) =>
      let pos := calculate idx input
      some (.ok ⟨t, applyTransformer tr lexeme, pos.1 + 1, pos.2, mg ()⟩, idx + lexeme.length)
    | some none =>
      let pos := calculate idx input
      some (.err ⟨pos.1 + 1, pos.2, mkReason (charAt input idx) (pos.1 + 1) pos.2⟩, idx + 1)
  else
    let pos := calculate idx input
    some (.ok ⟨opts.EOF_TYPE, [], pos.1 + 1, pos.2, mg ()⟩, idx)

/-- `RegexEngine.peek()`. -/
def peekChar (input : List Char) (idx : Nat) : Char :=
  if input.length ≤ idx then Char.ofNat 0 else charAt input idx

/-- The countdown for `RegexEngine.ignoreWhitespace()`: the loop advances `idx` by
one per iteration and its guard requires `idx < input.length + 1`, so
`input.length + 1 - idx` steps always suffice. -/
def skipWhitespaceGo (ws input : List Char) : Nat → Nat → Nat
  | 0, idx => idx
  | k + 1, idx =>
    if idx < input.length + 1 ∧ peekChar input idx ∈ ws then
      skipWhitespaceGo ws input k (idx + 1)
    else idx

/-- `RegexEngine.ignoreWhitespace()`. -/
def skipWhitespace (ws : List Char) (input : List Char) (idx : Nat) : Nat :=
  skipWhitespaceGo ws input (input.length + 1 - idx) idx

/-- `RegexEngine.tryGetNextNonSkippedToken()`: its `while` body always exits after
one iteration — a failure or a non-ignored token is returned, an ignored token
yields `null` (modelled `(newIndex, none)`). -/
def tryGetNextNonSkipped {T : Type u} {M : Type v} [DecidableEq T] (mf : Nat)
    (opts : SlexOptions T M) (mg : Unit → M) (env : Env T) (input : List Char) (idx : Nat) :
    Option (Nat × Option (TokenResult T M)) :=
  match tryGetNextTokenAux mf opts mg env input idx with
  | none => none
  | some (r, i') =>
    match r with
    | .err e => some (i', some (.err e))
    | .ok tok =>
      match opts.ignoreTokens with
      | none => some (i', some (.ok tok))
      | some ign =>
        if tok.type ∈ ign then some (i', none) else some (i', some (.ok tok))

/-- `RegexEngine.tryGetNextToken()`: skip whitespace, fetch, and loop while the
fetched token is ignored (`lf` fuels that do/while loop). -/
def tryGetNextTokenPub {T : Type u} {M : Type v} [DecidableEq T] :
    Nat → Nat → SlexOptions T M → (Unit → M) → Env T → List Char → Nat →
    Option (TokenResult T M × Nat)
  | 0, _, _, _, _, _, _ => none
  | lf + 1, mf, opts, mg, env, input, idx =>
    let i1 := skipWhitespace (wsOf opts) input idx
    match tryGetNextNonSkipped mf opts mg env input i1 with
    | none => none
    | some (i2, some r) => some (r, i2)
    | some (i2, none) => tryGetNextTokenPub lf mf opts mg env input i2

/-- `RegexEngine.getNextToken()`: the throwing wrapper —
`throw new Error(result.reason)` becomes `.error result.reason`. -/
def getNextTokenPub {T : Type u} {M : Type v} [DecidableEq T] (lf mf : Nat)
    (opts : SlexOptions T M) (mg : Unit → M) (env : Env T) (input : List Char) (idx : Nat) :
    Option (Except String (Token T M) × Nat) :=
  match tryGetNextTokenPub lf mf opts mg env input idx with
  | none => none
  | some (.err e, i') => some (.error e.reason, i')
  | some (.ok tok, i') => some (.ok tok, i')

/-- The six intrinsic rules the `Slex` constructor pre-registers (note the source
registers the key `"__symbols"` with a node named `"__symbolic"`). -/
def intrinsicEnv {T : Type u} (cc : CharClasses) : Env T :=
  [("__decimal_digit", ⟨.intrinsic "__decimal_digit" cc.isDigit, none, none⟩),
   ("__letter", ⟨.intrinsic "__letter" cc.isAlphabetic, none, none⟩),
   ("__uppercase_letter", ⟨.intrinsic "__uppercase_letter" cc.isAlphabeticUppercase, none, none⟩),
   ("__lowercase_letter", ⟨.intrinsic "__lowercase_letter" cc.isAlphabeticLowercase, none, none⟩),
   ("__symbols", ⟨.intrinsic "__symbolic" cc.isSymbolic, none, none⟩),
   ("__control_character", ⟨.intrinsic "__control_character" cc.isControl, none, none⟩)]

/-- The generator state: its options and its single mutable environment `Map`. -/
structure SlexSys (T : Type u) (M : Type v) : Type (max u v) where
  options : SlexOptions T M
  environment : Env T

/-- The `Slex` constructor: an environment holding exactly the six intrinsics. -/
def mkSlex {T : Type u} {M : Type v} (opts : SlexOptions T M) (cc : CharClasses) :
    SlexSys T M :=
  ⟨opts, intrinsicEnv cc⟩

/-- JS `Map.set`: overwrite in place when the key exists (keeping its position),
append otherwise. -/
def envSet {T : Type u} : Env T → String → RuleEntry T → Env T
  | [], k, v => [(k, v)]
  | (k', v') :: more, k, v =>
    if k' = k then (k, v) :: more else (k', v') :: envSet more k v

/-- `Slex.addRule`: lex the expression, parse it, attach the optional token type
and transformer, and store the root under `name`. `none` covers both a thrown
lexer/parser error and lexer non-termination. -/
def slexAddRule {T : Type u} {M : Type v} (lexFuel parseFuel : Nat) (cc : CharClasses)
    (s : SlexSys T M) (name : String) (expression : List Char) (emit : Option T)
    (transformer : Option Transformer) : Option (SlexSys T M) :=
  match lexGo cc lexFuel expression 0 [] with
  | none => none
  | some tokens =>
    match parseRegex parseFuel tokens 0 with
    | none => none
    | some (.error _) => none
    | some (.ok (root, _)) =>
      some ⟨s.options, envSet s.environment name ⟨root, emit, transformer⟩⟩

/-- `Slex.generate`: the engine keeps the input and the metadata generator, but the
source passes `this.environment` — the very `Map` the generator keeps mutating —
so the engine's environment is not copied here; it is looked up from the generator
at every call (see `engineTryNext`). -/
structure GeneratedEngine (M : Type v) : Type v where
  input : List Char
  metadataGenerator : Unit → M

/-- `Slex.generate(input, metadataGenerator)`. -/
def generate {T : Type u} {M : Type v} (_s : SlexSys T M) (input : List Char)
    (mg : Unit → M) : GeneratedEngine M :=
  ⟨input, mg⟩

/-- One `tryGetNextToken` call of a generated engine: because the engine aliases the
generator's environment `Map`, rule selection reads the generator's environment as
it is at call time. -/
def engineTryNext {T : Type u} {M : Type v} [DecidableEq T] (lf mf : Nat)
    (s : SlexSys T M) (e : GeneratedEngine M) (idx : Nat) :
    Option (TokenResult T M × Nat) :=
  tryGetNextTokenPub lf mf s.options e.metadataGenerator s.environment e.input idx

/-! ### Concrete instances used by the witnesses and counterexamples -/

/-- A concrete option record: `Nat` token types, tie-break preferring the larger
token-type number, default whitespace, no ignore set. -/
def natOpts : SlexOptions Nat Unit :=
  { EOF_TYPE := 0
    isHigherPrecedence := fun a b => decide (a < b)
    whitespaceCharacters := none
    ignoreTokens := none }

/-- A generator holding only the intrinsics. -/
def c9sys0 : SlexSys Nat Unit := mkSlex natOpts asciiClasses

/-- `c9sys0` after `addRule("aRule", "a", 1)`. -/
def c9sys1 : SlexSys Nat Unit :=
  (slexAddRule 20 20 asciiClasses c9sys0 "aRule" ['a'] (some 1) none).getD c9sys0

/-- `c9sys1` after `addRule("bRule", "b", 2)` — registered *after* the engine of
the C9 counterexample has been generated. -/
def c9sys2 : SlexSys Nat Unit :=
  (slexAddRule 20 20 asciiClasses c9sys1 "bRule" ['b'] (some 2) none).getD c9sys0

/-! ### Prefix helpers -/

theorem cons_pref_iff {p c : Char} {ps cs : List Char} :
    (p :: ps) <+: (c :: cs) ↔ p = c ∧ ps <+: cs := by
  constructor
  · rintro ⟨t, ht⟩
    injection ht with h1 h2
    exact ⟨h1, t, h2⟩
  · rintro ⟨rfl, t, ht⟩
    exact ⟨t, by rw [List.cons_append, ht]⟩

theorem isPrefixOf_true_iff : ∀ (pat s : List Char), pat.isPrefixOf s = true ↔ pat <+: s := by
  intro pat
  induction pat with
  | nil =>
    intro s
    simp only [List.isPrefixOf, true_iff]
    exact ⟨s, rfl⟩
  | cons p ps ih =>
    intro s
    cases s with
    | nil =>
      simp only [List.isPrefixOf, Bool.false_eq_true, false_iff]
      rintro ⟨t, ht⟩
      simp at ht
    | cons c cs =>
      simp only [List.isPrefixOf, cons_pref_iff, Bool.and_eq_true, beq_iff_eq, ih cs]

theorem jsReplaceFirst_drop {pat s : List Char} (h : pat <+: s) :
    jsReplaceFirst s pat = s.drop pat.length := by
  cases s with
  | nil => simp only [jsReplaceFirst, if_pos ((isPrefixOf_true_iff pat []).2 h)]
  | cons c cs => simp only [jsReplaceFirst, if_pos ((isPrefixOf_true_iff pat (c :: cs)).2 h)]

theorem pref_extend {cache m rest : List Char} (h1 : cache <+: rest)
    (h2 : m <+: rest.drop cache.length) : (cache ++ m) <+: rest := by
  obtain ⟨t, ht⟩ := h1
  obtain ⟨u, hu⟩ := h2
  subst ht
  rw [List.drop_left] at hu
  exact ⟨u, by rw [List.append_assoc, hu]⟩

/-- The prefix invariant, proved for all six mutually defined matcher functions at
once by induction on the fuel. -/
theorem prefixAll {T : Type u} : ∀ n : Nat,
    (∀ (env : Env T) (node : RegexNode) (rest : List Char) (l : List (List Char)),
      getMatches n env node rest = some l → ∀ s ∈ l, s <+: rest) ∧
    (∀ (env : Env T) (nodes : List RegexNode) (rest : List Char) (l : List (List Char)),
      eitherGo n env nodes rest = some l → ∀ s ∈ l, s <+: rest) ∧
    (∀ (env : Env T) (node : RegexNode) (rest : List Char) (caches l : List (List Char)),
      (∀ c ∈ caches, c <+: rest) → concatCaches n env node rest caches = some l →
      ∀ s ∈ l, s <+: rest) ∧
    (∀ (env : Env T) (nodes : List RegexNode) (rest : List Char) (caches l : List (List Char)),
      (∀ c ∈ caches, c <+: rest) → concatGo n env nodes rest caches = some l →
      ∀ s ∈ l, s <+: rest) ∧
    (∀ (env : Env T) (inner : RegexNode) (rest : List Char) (ms l : List (List Char)),
      (∀ m ∈ ms, m <+: rest) → groupPass n env inner rest ms = some l →
      ∀ s ∈ l, s <+: rest) ∧
    (∀ (env : Env T) (inner : RegexNode) (rest : List Char) (ms l : List (List Char)),
      (∀ m ∈ ms, m <+: rest) → groupLoop n env inner rest ms = some l →
      ∀ s ∈ l, s <+: rest) := by
  intro n
  induction n with
  | zero =>
    refine ⟨fun env node rest l h => absurd h (by simp [getMatches]),
            fun env nodes rest l h => absurd h (by simp [eitherGo]),
            fun env node rest caches l _ h => absurd h (by simp [concatCaches]),
            fun env nodes rest caches l _ h => absurd h (by simp [concatGo]),
            fun env inner rest ms l _ h => absurd h (by simp [groupPass]),
            fun env inner rest ms l _ h => absurd h (by simp [groupLoop])⟩
  | succ n ih =>
    obtain ⟨ihG, ihE, ihCC, ihCG, ihGP, ihGL⟩ := ih
    refine ⟨?_, ?_, ?_, ?_, ?_, ?_⟩
    · -- getMatches
      intro env node rest l h s hs
      cases node with
      | literal ch =>
        cases rest with
        | nil =>
          simp only [getMatches] at h
          injection h with h
          subst h
          cases hs
        | cons c cs =>
          simp only [getMatches] at h
          injection h with h
          subst h
          by_cases hc : c = ch
          · rw [if_pos hc] at hs
            simp at hs
            subst hs
            exact ⟨cs, rfl⟩
          · rw [if_neg hc] at hs
            cases hs
      | concatenation nodes =>
        simp only [getMatches] at h
        refine ihCG env nodes rest [[]] l ?_ h s hs
        intro c hc
        simp at hc
        subst hc
        exact ⟨rest, rfl⟩
      | either nodes =>
        simp only [getMatches] at h
        exact ihE env nodes rest l h s hs
      | variableNode nm =>
        cases he : envGet env nm with
        | none =>
          simp only [getMatches, he] at h
          injection h with h
          subst h
          cases hs
        | some entry =>
          simp only [getMatches, he] at h
          exact ihG env entry.node rest l h s hs
      | grouping inner modifier =>
        cases hI : getMatches n env inner rest with
        | none => simp [getMatches, hI] at h
        | some init =>
          cases init with
          | nil =>
            simp only [getMatches, hI] at h
            cases modifier with
            | NONE =>
              injection h with h
              subst h
              cases hs
            | NONE_OR_MORE =>
              injection h with h
              subst h
              simp at hs
              subst hs
              exact ⟨rest, rfl⟩
            | ONE_OR_MORE =>
              injection h with h
              subst h
              cases hs
          | cons x xs =>
            cases modifier with
            | NONE =>
              simp only [getMatches, hI] at h
              injection h with h
              subst h
              exact ihG env inner rest (x :: xs) hI s hs
            | NONE_OR_MORE =>
              simp only [getMatches, hI] at h
              exact ihGL env inner rest (x :: xs) l (ihG env inner rest (x :: xs) hI) h s hs
            | ONE_OR_MORE =>
              simp only [getMatches, hI] at h
              exact ihGL env inner rest (x :: xs) l (ihG env inner rest (x :: xs) hI) h s hs
      | intrinsic nm pred =>
        cases rest with
        | nil =>
          simp only [getMatches] at h
          injection h with h
          subst h
          cases hs
        | cons c cs =>
          simp only [getMatches] at h
          injection h with h
          subst h
          by_cases hp : pred c = true
          · rw [if_pos hp] at hs
            simp at hs
            subst hs
            exact ⟨cs, rfl⟩
          · rw [if_neg hp] at hs
            cases hs
    · -- eitherGo
      intro env nodes rest l h s hs
      cases nodes with
      | nil =>
        simp only [eitherGo] at h
        injection h with h
        subst h
        cases hs
      | cons node more =>
        simp only [eitherGo] at h
        cases h1 : getMatches n env node rest with
        | none => simp [h1] at h
        | some ms =>
          cases h2 : eitherGo n env more rest with
          | none => simp [h1, h2] at h
          | some ms2 =>
            simp only [h1, h2] at h
            injection h with h
            subst h
            rcases List.mem_append.1 hs with hs | hs
            · exact ihG env node rest ms h1 s hs
            · exact ihE env more rest ms2 h2 s hs
    · -- concatCaches
      intro env node rest caches l hc h s hs
      cases caches with
      | nil =>
        simp only [concatCaches] at h
        injection h with h
        subst h
        cases hs
      | cons cache more =>
        have hcache : cache <+: rest := hc cache (by simp)
        simp only [concatCaches] at h
        cases h1 : getMatches n env node (jsReplaceFirst rest cache) with
        | none => simp [h1] at h
        | some nextMatches =>
          cases h2 : concatCaches n env node rest more with
          | none => simp [h1, h2] at h
          | some ms2 =>
            simp only [h1, h2] at h
            injection h with h
            subst h
            rcases List.mem_append.1 hs with hs | hs
            · obtain ⟨m, hm, rfl⟩ := List.mem_map.1 hs
              have hmp : m <+: rest.drop cache.length := by
                have := ihG env node (jsReplaceFirst rest cache) nextMatches h1 m hm
                rwa [jsReplaceFirst_drop hcache] at this
              exact pref_extend hcache hmp
            · exact ihCC env node rest more ms2 (fun c hc2 => hc c (by simp [hc2])) h2 s hs
    · -- concatGo
      intro env nodes rest caches l hc h s hs
      cases nodes with
      | nil =>
        simp only [concatGo] at h
        injection h with h
        subst h
        exact hc s hs
      | cons node more =>
        simp only [concatGo] at h
        cases h1 : concatCaches n env node rest caches with
        | none => simp [h1] at h
        | some nextCaches =>
          simp only [h1] at h
          exact ihCG env more rest nextCaches l
            (ihCC env node rest caches nextCaches hc h1) h s hs
    · -- groupPass
      intro env inner rest ms l hm h s hs
      cases ms with
      | nil =>
        simp only [groupPass] at h
        injection h with h
        subst h
        cases hs
      | cons m more =>
        have hmp : m <+: rest := hm m (by simp)
        simp only [groupPass] at h
        rw [jsReplaceFirst_drop hmp] at h
        cases hd : rest.drop m.length with
        | nil =>
          simp only [hd] at h
          exact ihGP env inner rest more l (fun x hx => hm x (by simp [hx])) h s hs
        | cons r rs =>
          simp only [hd] at h
          cases h1 : getMatches n env inner (r :: rs) with
          | none => simp [h1] at h
          | some nextMatch =>
            cases h2 : groupPass n env inner rest more with
            | none => simp [h1, h2] at h
            | some ms2 =>
              simp only [h1, h2] at h
              injection h with h
              subst h
              rcases List.mem_append.1 hs with hs | hs
              · obtain ⟨x, hx, rfl⟩ := List.mem_map.1 hs
                have hxp : x <+: rest.drop m.length := by
                  rw [hd]
                  exact ihG env inner (r :: rs) nextMatch h1 x hx
                exact pref_extend hmp hxp
              · exact ihGP env inner rest more ms2 (fun y hy => hm y (by simp [hy])) h2 s hs
    · -- groupLoop
      intro env inner rest ms l hm h s hs
      simp only [groupLoop] at h
      cases h1 : groupPass n env inner rest ms with
      | none => simp [h1] at h
      | some next =>
        cases next with
        | nil =>
          simp only [h1] at h
          injection h with h
          subst h
          exact hm s hs
        | cons x xs =>
          simp only [h1] at h
          exact ihGL env inner rest (x :: xs) l (ihGP env inner rest ms (x :: xs) hm h1) h s hs

/-- C4: for every node variant (Literal, Concatenation, Either, Grouping, Variable,
Intrinsic), every environment, and every remainder string, every string returned by
`getMatches` is a non-strict prefix of the remainder; and removing an
already-accepted prefix via string replacement (as Concatenation and Grouping do)
is equivalent to advancing by the prefix's length. -/
theorem getMatches_returns_prefixes :
    (∀ (T : Type) (n : Nat) (env : Env T) (node : RegexNode) (rest : List Char)
      (l : List (List Char)), getMatches n env node rest = some l → ∀ s ∈ l, s <+: rest) ∧
    (∀ (rest cache : List Char), cache <+: rest →
      jsReplaceFirst rest cache = rest.drop cache.length) :=
  ⟨fun _ n env node rest l h => (prefixAll n).1 env node rest l h,
   fun _ _ h => jsReplaceFirst_drop h⟩

/-- Witness for C4 at a concrete input: the concatenation `ab` against remainder
`"abc"` returns only prefixes, and replacement equals advancing for `"a" ⊑ "abc"`. -/
theorem getMatches_returns_prefixes_witness :
    (∀ s ∈ [(['a', 'b'] : List Char)], s <+: ['a', 'b', 'c']) ∧
    jsReplaceFirst ['a', 'b', 'c'] ['a'] = ['b', 'c'] :=
  ⟨getMatches_returns_prefixes.1 Unit 10 [] (.concatenation [.literal 'a', .literal 'b'])
      ['a', 'b', 'c'] [['a', 'b']] (by decide),
   getMatches_returns_prefixes.2 ['a', 'b', 'c'] ['a'] ⟨['b', 'c'], rfl⟩⟩

/-! ### C1 / C6: what the repetition loop actually returns -/

/-- Counterexample to C1: for `(a)*` against `"aa"`, one repetition of the inner
node accepts the prefix `"a"` (second conjunct), yet the returned set is only
`{"aa"}` — the shorter accepted prefix is not in the returned set, so the result
is not the union over every repetition depth. -/
theorem grouping_discards_shallower_depths :
    getMatches 20 ([] : Env Unit) (.grouping (.literal 'a') .NONE_OR_MORE) ['a', 'a']
      = some [['a', 'a']]
    ∧ getMatches 20 ([] : Env Unit) (.literal 'a') ['a', 'a'] = some [['a']]
    ∧ ['a'] ∉ [(['a', 'a'] : List Char)] :=
  ⟨by decide, by decide, by decide⟩

/-- When `groupLoop` terminates, the returned set is its final generation: one more
extension pass on the result produces nothing. -/
theorem groupLoop_final_pass {T : Type u} :
    ∀ (n : Nat) (env : Env T) (inner : RegexNode) (rest : List Char)
      (ms res : List (List Char)), groupLoop n env inner rest ms = some res →
      ∃ k, k < n ∧ groupPass k env inner rest res = some [] := by
  intro n
  induction n with
  | zero =>
    intro env inner rest ms res h
    exact absurd h (by simp [groupLoop])
  | succ n ih =>
    intro env inner rest ms res h
    simp only [groupLoop] at h
    cases h1 : groupPass n env inner rest ms with
    | none => simp [h1] at h
    | some next =>
      cases next with
      | nil =>
        simp only [h1] at h
        injection h with h
        subst h
        exact ⟨n, Nat.lt_succ_self n, h1⟩
      | cons x xs =>
        simp only [h1] at h
        obtain ⟨k, hk, h2⟩ := ih env inner rest (x :: xs) res h
        exact ⟨k, Nat.lt_trans hk (Nat.lt_succ_self n), h2⟩

/-- C1 amended: for a Grouping with modifier ZeroOrMore or OneOrMore, the returned
set is not the union over every repetition depth; when the inner node initially
matches, the result is the final extension generation — a set on which a further
extension pass yields nothing — and accepted prefixes from shallower repetition
depths are discarded (see the counterexample). When the inner node does not match,
the result is `{""}` for ZeroOrMore and `{}` for OneOrMore. -/
theorem grouping_returns_final_generation {T : Type u}
    (n : Nat) (env : Env T) (inner : RegexNode) (rest : List Char)
    (modifier : RegexGroupingNodeModifiers) (res : List (List Char))
    (hm : modifier = .NONE_OR_MORE ∨ modifier = .ONE_OR_MORE)
    (h : getMatches (n + 1) env (.grouping inner modifier) rest = some res) :
    (getMatches n env inner rest = some [] ∧ (res = [[]] ∨ res = []))
    ∨ ∃ k, k < n ∧ groupPass k env inner rest res = some [] := by
  cases hI : getMatches n env inner rest with
  | none => simp [getMatches, hI] at h
  | some init =>
    cases init with
    | nil =>
      simp only [getMatches, hI] at h
      rcases hm with rfl | rfl
      · injection h with h
        exact Or.inl ⟨rfl, Or.inl h.symm⟩
      · injection h with h
        exact Or.inl ⟨rfl, Or.inr h.symm⟩
    | cons x xs =>
      rcases hm with rfl | rfl
      · simp only [getMatches, hI] at h
        exact Or.inr (groupLoop_final_pass n env inner rest (x :: xs) res h)
      · simp only [getMatches, hI] at h
        exact Or.inr (groupLoop_final_pass n env inner rest (x :: xs) res h)

/-- Witness for the amended C1 at `(a)*` against `"aa"`: the returned set
`{"aa"}` admits no further extension pass. -/
theorem grouping_returns_final_generation_witness :
    (getMatches 19 ([] : Env Unit) (.literal 'a') ['a', 'a'] = some []
      ∧ ([(['a', 'a'] : List Char)] = [[]] ∨ [(['a', 'a'] : List Char)] = []))
    ∨ ∃ k, k < 19 ∧ groupPass k ([] : Env Unit) (.literal 'a') ['a', 'a'] [['a', 'a']]
        = some [] :=
  grouping_returns_final_generation 19 [] (.literal 'a') ['a', 'a'] .NONE_OR_MORE
    [['a', 'a']] (Or.inl rfl) (by decide)

/-- Counterexample to C6: `(a)*` against `"a"` returns `{"a"}` only — the empty
string is not among the candidates when the inner node matches a non-empty prefix. -/
theorem zeroOrMore_empty_not_included :
    getMatches 20 ([] : Env Unit) (.grouping (.literal 'a') .NONE_OR_MORE) ['a']
      = some [['a']]
    ∧ ([] : List Char) ∉ [(['a'] : List Char)] :=
  ⟨by decide, by decide⟩

/-- An extension pass cannot produce the empty string from a working set without
it: every contribution is `m ++ m'` with `m` an element of the working set. -/
theorem groupPass_no_nil {T : Type u} :
    ∀ (k : Nat) (env : Env T) (inner : RegexNode) (rest : List Char)
      (ms l : List (List Char)),
      groupPass k env inner rest ms = some l → ([] : List Char) ∉ ms →
      ([] : List Char) ∉ l := by
  intro k
  induction k with
  | zero =>
    intro env inner rest ms l h _
    exact absurd h (by simp [groupPass])
  | succ k ih =>
    intro env inner rest ms l h hms
    cases ms with
    | nil =>
      simp only [groupPass] at h
      injection h with h
      subst h
      exact List.not_mem_nil []
    | cons m more =>
      have hm_ne : m ≠ [] := fun he => hms (he ▸ List.mem_cons_self m more)
      have hmore : ([] : List Char) ∉ more := fun hx => hms (List.mem_cons_of_mem m hx)
      simp only [groupPass] at h
      cases hr : jsReplaceFirst rest m with
      | nil =>
        simp only [hr] at h
        exact ih env inner rest more l h hmore
      | cons r rs =>
        simp only [hr] at h
        cases h1 : getMatches k env inner (r :: rs) with
        | none => simp [h1] at h
        | some nextMatch =>
          cases h2 : groupPass k env inner rest more with
          | none => simp [h1, h2] at h
          | some l2 =>
            simp only [h1, h2] at h
            injection h with h
            subst h
            intro hmem
            rcases List.mem_append.1 hmem with hx | hx
            · obtain ⟨x, -, hx2⟩ := List.mem_map.1 hx
              exact hm_ne (List.append_eq_nil.1 hx2).1
            · exact ih env inner rest more l2 h2 hmore hx

/-- The repetition loop never introduces the empty string: if the seed generation
has no empty element, neither does the returned set. -/
theorem groupLoop_no_nil {T : Type u} :
    ∀ (k : Nat) (env : Env T) (inner : RegexNode) (rest : List Char)
      (ms res : List (List Char)),
      groupLoop k env inner rest ms = some res → ([] : List Char) ∉ ms →
      ([] : List Char) ∉ res := by
  intro k
  induction k with
  | zero =>
    intro env inner rest ms res h _
    exact absurd h (by simp [groupLoop])
  | succ k ih =>
    intro env inner rest ms res h hms
    simp only [groupLoop] at h
    cases h1 : groupPass k env inner rest ms with
    | none => simp [h1] at h
    | some next =>
      cases next with
      | nil =>
        simp only [h1] at h
        injection h with h
        subst h
        exact hms
      | cons x xs =>
        simp only [h1] at h
        exact ih env inner rest (x :: xs) res h
          (groupPass_no_nil k env inner rest ms (x :: xs) h1 hms)

/-- C6 amended: for a Grouping with modifier ZeroOrMore, the empty string is among
the returned candidates when the inner node's match set on the remainder is empty
(the result is then `{""}`); but contrary to the original claim, when the inner
node does match and all of its matches are non-empty prefixes, the empty string is
not among the returned candidates (see the counterexample). -/
theorem zeroOrMore_empty_membership {T : Type u} (n : Nat) (env : Env T)
    (inner : RegexNode) (rest : List Char) :
    (getMatches n env inner rest = some [] →
      getMatches (n + 1) env (.grouping inner .NONE_OR_MORE) rest = some [[]])
    ∧ (∀ init res : List (List Char),
        getMatches n env inner rest = some init → init ≠ [] →
        ([] : List Char) ∉ init →
        getMatches (n + 1) env (.grouping inner .NONE_OR_MORE) rest = some res →
        ([] : List Char) ∉ res) := by
  constructor
  · intro hI
    simp [getMatches, hI]
  · intro init res hI hne hnil h
    cases init with
    | nil => exact absurd rfl hne
    | cons x xs =>
      simp only [getMatches, hI] at h
      exact groupLoop_no_nil n env inner rest (x :: xs) res h hnil

/-- Witness for the amended C6: `(a)*` against `"b"` yields exactly `{""}`, and
`(a)*` against `"a"` (inner matching only the non-empty `"a"`) yields a candidate
set without the empty string. -/
theorem zeroOrMore_empty_membership_witness :
    getMatches 6 ([] : Env Unit) (.grouping (.literal 'a') .NONE_OR_MORE) ['b']
      = some [[]]
    ∧ ([] : List Char) ∉ [(['a'] : List Char)] :=
  ⟨(zeroOrMore_empty_membership 5 ([] : Env Unit) (.literal 'a') ['b']).1 (by decide),
   (zeroOrMore_empty_membership 19 ([] : Env Unit) (.literal 'a') ['a']).2
     [['a']] [['a']] (by decide) (by decide) (by decide) (by decide)⟩

/-! ### C2: the repetition loop diverges when the inner node matches empty -/

theorem jsReplaceFirst_nil : ∀ s : List Char, jsReplaceFirst s [] = s := by
  intro s
  cases s <;> rfl

theorem c2_lit_cases : ∀ m : Nat,
    getMatches m ([] : Env Unit) (.literal 'b') ['a'] = none
    ∨ getMatches m ([] : Env Unit) (.literal 'b') ['a'] = some [] := by
  intro m
  cases m with
  | zero => exact Or.inl rfl
  | succ m =>
    right
    simp [getMatches]

theorem c2_inner_cases : ∀ m : Nat,
    getMatches m ([] : Env Unit) (.grouping (.literal 'b') .NONE_OR_MORE) ['a'] = none
    ∨ getMatches m ([] : Env Unit) (.grouping (.literal 'b') .NONE_OR_MORE) ['a']
        = some [[]] := by
  intro m
  cases m with
  | zero => exact Or.inl rfl
  | succ m =>
    rcases c2_lit_cases m with h | h
    · left
      simp [getMatches, h]
    · right
      simp [getMatches, h]

theorem c2_pass_cases : ∀ m : Nat,
    groupPass m ([] : Env Unit) (.grouping (.literal 'b') .NONE_OR_MORE) ['a'] [[]] = none
    ∨ groupPass m ([] : Env Unit) (.grouping (.literal 'b') .NONE_OR_MORE) ['a'] [[]]
        = some [[]] := by
  intro m
  cases m with
  | zero => exact Or.inl rfl
  | succ m =>
    cases m with
    | zero => exact Or.inl rfl
    | succ k =>
      rcases c2_inner_cases (k + 1) with h | h
      · left
        simp only [groupPass, jsReplaceFirst_nil, h]
      · right
        simp [groupPass, jsReplaceFirst_nil, h]

theorem c2_loop_diverges : ∀ m : Nat,
    groupLoop m ([] : Env Unit) (.grouping (.literal 'b') .NONE_OR_MORE) ['a'] [[]]
      = none := by
  intro m
  induction m with
  | zero => rfl
  | succ m ih =>
    simp only [groupLoop]
    rcases c2_pass_cases m with h | h
    · simp only [h]
    · simp only [h]
      exact ih

/-- C2 is a code bug: for the node `((b)*)*` — whose inner node `(b)*` matches only
the empty string against the remainder `"a"` — every extension pass returns the
non-empty set `{""}`, so the source's `while (true)` loop (which stops only on a
pass with no results, with no guard against passes that lengthen nothing) never
terminates: the fuelled evaluation returns `none` for every fuel. -/
theorem zeroLengthRepetition_diverges :
    ∀ fuel : Nat,
      getMatches fuel ([] : Env Unit)
        (.grouping (.grouping (.literal 'b') .NONE_OR_MORE) .NONE_OR_MORE) ['a']
      = none := by
  intro fuel
  cases fuel with
  | zero => rfl
  | succ m =>
    rcases c2_inner_cases m with h | h
    · simp [getMatches, h]
    · simp only [getMatches, h]
      exact c2_loop_diverges m

/-! ### C7: the rule lexer hangs on an unhandled character -/

/-- C7 is a code bug: on a character handled by no branch (not alphanumeric, not an
operator, not `$`, not whitespace — here `#`), `RegexLexer.lex` logs a message but
never advances `this.index`, so its `while` loop re-reads the same character
forever instead of aborting: the fuelled evaluation returns `none` for every fuel. -/
theorem lexer_unknown_char_diverges :
    ∀ (fuel : Nat) (cc : CharClasses),
      cc.isAlphabetic '#' = false → cc.isDigit '#' = false → cc.isWhitespace '#' = false →
      lexGo cc fuel ['#'] 0 [] = none := by
  intro fuel cc h1 h2 h3
  induction fuel with
  | zero => rfl
  | succ n ih =>
    simp [lexGo, h1, h2, h3]
    exact ih

/-- Witness for C7 with the concrete ASCII character classes. -/
theorem lexer_unknown_char_diverges_witness :
    lexGo asciiClasses 5 ['#'] 0 [] = none :=
  lexer_unknown_char_diverges 5 asciiClasses (by decide) (by decide) (by decide)

/-! ### C8: the rule parser accepts trailing unconsumed tokens -/

/-- Counterexample to C8: the token stream `LITERAL a, RPAREN, LITERAL b` — a
complete Regex followed by a stray right parenthesis and more tokens — is *not* a
parse error: `parse` succeeds with the partial AST `a`, leaving index 1 of 3
unconsumed. -/
theorem parser_accepts_trailing_tokens :
    parseRegex 9 [⟨.LITERAL, ['a']⟩, ⟨.RPAREN, [')']⟩, ⟨.LITERAL, ['b']⟩] 0
      = some (.ok (.literal 'a', 1))
    ∧ (1 : Nat) < List.length
        [(⟨.LITERAL, ['a']⟩ : RegexToken), ⟨.RPAREN, [')']⟩, ⟨.LITERAL, ['b']⟩] :=
  ⟨by rfl, by decide⟩

/-- C8 amended: the parser does not consume the entire token list — it returns
after the top-level alternation without any trailing-token check, so a stray right
parenthesis and arbitrary tokens after it are silently left unconsumed and the
partial AST is accepted (the caller `Slex.addRule` stores it without error). -/
theorem parser_ignores_trailing_tokens :
    ∀ (n : Nat) (rest : List RegexToken),
      parseRegex (n + 3) (⟨.LITERAL, ['a']⟩ :: ⟨.RPAREN, [')']⟩ :: rest) 0
        = some (.ok (.literal 'a', 1)) := by
  intro n rest
  simp [parseRegex, parseConcatenation, parseTerminal, parseConcatLoop, parseRegexLoop,
    finishPossibles, finishConcatNodes, charAt]

/-! ### C3: longest match, then precedence, then registration order -/

/-- C3: in `_tryGetNextToken`'s selection loop, for two registered emitting rules
that both match: the rule whose longest match is strictly longer wins regardless
of registration order (and independently of the precedence function); on an exact
length tie the candidate replaces the current best exactly when the caller's
precedence function says so, and when it answers `false` the earlier-registered
rule wins. -/
theorem scanner_winner_selection {T : Type u} :
    ∀ (mf : Nat) (isH : T → T → Bool) (n1 n2 : String) (e1 e2 : RuleEntry T)
      (t1 t2 : T) (rest : List Char) (ms1 ms2 : List (List Char)),
      e1.emit = some t1 → e2.emit = some t2 →
      getMatches mf [(n1, e1), (n2, e2)] e1.node rest = some ms1 →
      getMatches mf [(n1, e1), (n2, e2)] e2.node rest = some ms2 →
      getMatches mf [(n2, e2), (n1, e1)] e1.node rest = some ms1 →
      getMatches mf [(n2, e2), (n1, e1)] e2.node rest = some ms2 →
      ms1 ≠ [] → ms2 ≠ [] →
      (((longestOf ms1).length < (longestOf ms2).length →
          pickRule mf isH [(n1, e1), (n2, e2)] rest
            = some (some (longestOf ms2, t2, e2.transformer))
          ∧ pickRule mf isH [(n2, e2), (n1, e1)] rest
            = some (some (longestOf ms2, t2, e2.transformer)))
        ∧ ((longestOf ms1).length = (longestOf ms2).length →
          pickRule mf isH [(n1, e1), (n2, e2)] rest
            = some (some (if isH t1 t2 = true then (longestOf ms2, t2, e2.transformer)
                else (longestOf ms1, t1, e1.transformer))))) := by
  intro mf isH n1 n2 e1 e2 t1 t2 rest ms1 ms2 hE1 hE2 hg12a hg12b hg21a hg21b hne1 hne2
  cases ms1 with
  | nil => exact absurd rfl hne1
  | cons m1 l1 =>
    cases ms2 with
    | nil => exact absurd rfl hne2
    | cons m2 l2 =>
      constructor
      · intro hlt
        constructor
        · simp only [pickRule, pickGo, hE1, hE2, hg12a, hg12b]
          rw [if_pos (Or.inl hlt)]
        · simp only [pickRule, pickGo, hE1, hE2, hg21a, hg21b]
          rw [if_neg ?_]
          rintro (h | ⟨h, -⟩)
          · omega
          · omega
      · intro heq
        cases hH : isH t1 t2 with
        | false =>
          simp only [pickRule, pickGo, hE1, hE2, hg12a, hg12b]
          rw [if_neg ?_]
          · simp [hH]
          · rintro (h | ⟨-, h2⟩)
            · omega
            · simp [hH] at h2
        | true =>
          simp only [pickRule, pickGo, hE1, hE2, hg12a, hg12b]
          rw [if_pos (Or.inr ⟨heq, hH⟩)]
          simp [hH]

/-- Witness for C3: a strict-length case in both registration orders, and an
exact-tie case decided by the precedence function. -/
theorem scanner_winner_selection_witness :
    (pickRule 10 (fun a b : Nat => decide (a < b))
        [("r1", ⟨.literal 'a', some 1, none⟩),
         ("r2", ⟨.concatenation [.literal 'a', .literal 'a'], some 2, none⟩)] ['a', 'a']
      = some (some (['a', 'a'], 2, none))
    ∧ pickRule 10 (fun a b : Nat => decide (a < b))
        [("r2", ⟨.concatenation [.literal 'a', .literal 'a'], some 2, none⟩),
         ("r1", ⟨.literal 'a', some 1, none⟩)] ['a', 'a']
      = some (some (['a', 'a'], 2, none)))
    ∧ pickRule 10 (fun a b : Nat => decide (a < b))
        [("r1", ⟨.literal 'a', some 1, none⟩),
         ("r2", ⟨.either [.literal 'a'], some 2, none⟩)] ['a']
      = some (some (['a'], 2, none)) := by
  constructor
  · exact (scanner_winner_selection 10 (fun a b : Nat => decide (a < b)) "r1" "r2"
      ⟨.literal 'a', some 1, none⟩ ⟨.concatenation [.literal 'a', .literal 'a'], some 2, none⟩
      1 2 ['a', 'a'] [['a']] [['a', 'a']] rfl rfl
      (by decide) (by decide) (by decide) (by decide) (by decide) (by decide)).1 (by decide)
  · exact (scanner_winner_selection 10 (fun a b : Nat => decide (a < b)) "r1" "r2"
      ⟨.literal 'a', some 1, none⟩ ⟨.either [.literal 'a'], some 2, none⟩
      1 2 ['a'] [['a']] [['a']] rfl rfl
      (by decide) (by decide) (by decide) (by decide) (by decide) (by decide)).2 (by decide)

/-! ### C5: scan failure is structured and consumes exactly one character -/

/-- When every emitting rule's match set is empty, the selection loop finishes with
no winner (`ret.success` stays false). -/
theorem pickGo_no_match {T : Type u} (mf : Nat) (isH : T → T → Bool) (env : Env T)
    (rest : List Char) :
    ∀ iter : List (String × RuleEntry T),
      (∀ p ∈ iter, ∀ t, p.2.emit = some t →
        getMatches mf env p.2.node rest = some []) →
      pickGo mf isH env rest iter none = some none := by
  intro iter
  induction iter with
  | nil => intro _; rfl
  | cons q more ih =>
    intro h
    obtain ⟨nm, entry⟩ := q
    cases hE : entry.emit with
    | none =>
      simp only [pickGo, hE]
      exact ih (fun p hp => h p (by simp [hp]))
    | some t =>
      have hm := h (nm, entry) (by simp) t hE
      simp only [pickGo, hE, hm]
      exact ih (fun p hp => h p (by simp [hp]))

/-- C5: when no registered emitting rule matches at the current position,
`_tryGetNextToken` returns a structured failure carrying line, column and reason
and advances the offset by exactly one character; and the throwing `getNextToken`
raises (returns `.error`) exactly when the non-throwing `tryGetNextToken` fails,
with the same advanced offset. -/
theorem scan_failure_structured_and_advances_one {T : Type u} {M : Type v}
    [DecidableEq T] (mf : Nat) (opts : SlexOptions T M) (mg : Unit → M) (env : Env T)
    (input : List Char) (idx : Nat)
    (hlt : idx < input.length)
    (hnone : ∀ p ∈ env, ∀ t, p.2.emit = some t →
      getMatches mf env p.2.node (input.drop idx) = some []) :
    tryGetNextTokenAux mf opts mg env input idx
      = some (.err ⟨(calculate idx input).1 + 1, (calculate idx input).2,
          mkReason (charAt input idx) ((calculate idx input).1 + 1)
            (calculate idx input).2⟩, idx + 1)
    ∧ (∀ (lf mf' : Nat) (opts' : SlexOptions T M) (mg' : Unit → M) (env' : Env T)
        (input' : List Char) (idx' i2 : Nat) (e : ScanError),
        tryGetNextTokenPub lf mf' opts' mg' env' input' idx' = some (.err e, i2) →
        getNextTokenPub lf mf' opts' mg' env' input' idx' = some (.error e.reason, i2)) := by
  constructor
  · have hp : pickRule mf opts.isHigherPrecedence env (input.drop idx) = some none :=
      pickGo_no_match mf _ env (input.drop idx) env hnone
    simp only [tryGetNextTokenAux, if_pos hlt, hp]
  · intro lf mf' opts' mg' env' input' idx' i2 e h
    simp only [getNextTokenPub, h]

/-- Witness for C5: one rule `a`, input `"b"`: a structured failure at line 1,
column 0, offset advanced from 0 to exactly 1, and the throwing variant raises
the same reason. -/
theorem scan_failure_structured_and_advances_one_witness :
    tryGetNextTokenAux 10 natOpts (fun _ => ())
        [("r", ⟨.literal 'a', some 1, none⟩)] ['b'] 0
      = some (.err ⟨(calculate 0 ['b']).1 + 1, (calculate 0 ['b']).2,
          mkReason (charAt ['b'] 0) ((calculate 0 ['b']).1 + 1) (calculate 0 ['b']).2⟩,
          0 + 1)
    ∧ getNextTokenPub 3 10 natOpts (fun _ => ())
        [("r", ⟨.literal 'a', some 1, none⟩)] ['b'] 0
      = some (.error (ScanError.mk 1 0 (mkReason 'b' 1 0)).reason, 1) := by
  have h := scan_failure_structured_and_advances_one 10 natOpts (fun _ => ())
    [("r", ⟨.literal 'a', some 1, none⟩)] ['b'] 0 (by decide)
    (by
      intro p hp t ht
      rw [List.mem_singleton] at hp
      subst hp
      decide)
  exact ⟨h.1, h.2 3 10 natOpts (fun _ => ()) [("r", ⟨.literal 'a', some 1, none⟩)]
    ['b'] 0 1 (ScanError.mk 1 0 (mkReason 'b' 1 0)) (by decide)⟩

/-! ### C10: an all-empty longest match yields an empty token and no progress -/

/-- Behaviour of the selection loop when every matching emitting rule's longest
match is empty: once `ret` is set, it keeps an empty lexeme; and if some emitting
rule has a non-empty match set, `ret` does get set. -/
theorem pickGo_all_empty {T : Type u} (mf : Nat) (isH : T → T → Bool) (env : Env T)
    (rest : List Char) :
    ∀ iter : List (String × RuleEntry T),
      (∀ p ∈ iter, ∀ t, p.2.emit = some t →
        ∃ ms, getMatches mf env p.2.node rest = some ms ∧ longestOf ms = []) →
      (∀ (t0 : T) (tr0 : Option Transformer),
          ∃ t tr, pickGo mf isH env rest iter (some ([], t0, tr0)) = some (some ([], t, tr)))
      ∧ ((∃ p ∈ iter, p.2.emit ≠ none ∧
            ∃ ms, getMatches mf env p.2.node rest = some ms ∧ ms ≠ []) →
          ∃ t tr, pickGo mf isH env rest iter none = some (some ([], t, tr))) := by
  intro iter
  induction iter with
  | nil =>
    intro _
    constructor
    · intro t0 tr0
      exact ⟨t0, tr0, rfl⟩
    · rintro ⟨p, hp, -⟩
      exact absurd hp (List.not_mem_nil p)
  | cons q more ih =>
    intro h
    obtain ⟨nm, entry⟩ := q
    obtain ⟨ihA, ihB⟩ := ih (fun p hp => h p (by simp [hp]))
    constructor
    · intro t0 tr0
      cases hE : entry.emit with
      | none =>
        simp only [pickGo, hE]
        exact ihA t0 tr0
      | some t =>
        obtain ⟨ms, hms, hlong⟩ := h (nm, entry) (by simp) t hE
        cases ms with
        | nil =>
          simp only [pickGo, hE, hms]
          exact ihA t0 tr0
        | cons m l =>
          simp only [pickGo, hE, hms]
          rw [hlong]
          by_cases hc : ([] : List Char).length < ([] : List Char).length
            ∨ (([] : List Char).length = ([] : List Char).length ∧ isH t0 t = true)
          · rw [if_pos hc]
            exact ihA t entry.transformer
          · rw [if_neg hc]
            exact ihA t0 tr0
    · rintro ⟨p, hp, hne, hmatch⟩
      cases hE : entry.emit with
      | none =>
        simp only [pickGo, hE]
        apply ihB
        rcases List.mem_cons.1 hp with rfl | hp2
        · exact absurd hE hne
        · exact ⟨p, hp2, hne, hmatch⟩
      | some t =>
        obtain ⟨ms, hms, hlong⟩ := h (nm, entry) (by simp) t hE
        cases ms with
        | nil =>
          simp only [pickGo, hE, hms]
          apply ihB
          rcases List.mem_cons.1 hp with rfl | hp2
          · obtain ⟨ms', hms', hne'⟩ := hmatch
            have heq := hms.symm.trans hms'
            injection heq with heq
            exact absurd heq.symm hne'
          · exact ⟨p, hp2, hne, hmatch⟩
        | cons m l =>
          simp only [pickGo, hE, hms]
          rw [hlong]
          exact ihA t entry.transformer

/-- C10 (implicit claim): when, at a position with characters remaining, at least
one emitting rule matches but the longest match of every matching emitting rule is
the empty string, `_tryGetNextToken` returns a success token whose raw lexeme is
empty (the stored lexeme is the transformer applied to `""`) and the offset is
unchanged — so an immediately following call is the very same application and
returns a token with the same type and position: the scanner makes no progress. -/
theorem empty_longest_match_no_progress {T : Type u} {M : Type v} [DecidableEq T]
    (mf : Nat) (opts : SlexOptions T M) (mg : Unit → M) (env : Env T)
    (input : List Char) (idx : Nat)
    (hlt : idx < input.length)
    (hall : ∀ p ∈ env, ∀ t, p.2.emit = some t →
      ∃ ms, getMatches mf env p.2.node (input.drop idx) = some ms ∧ longestOf ms = [])
    (hsome : ∃ p ∈ env, p.2.emit ≠ none ∧
      ∃ ms, getMatches mf env p.2.node (input.drop idx) = some ms ∧ ms ≠ []) :
    ∃ t tr, tryGetNextTokenAux mf opts mg env input idx
      = some (.ok ⟨t, applyTransformer tr [], (calculate idx input).1 + 1,
          (calculate idx input).2, mg ()⟩, idx) := by
  obtain ⟨t, tr, hp⟩ :=
    (pickGo_all_empty mf opts.isHigherPrecedence env (input.drop idx) env hall).2 hsome
  refine ⟨t, tr, ?_⟩
  simp only [tryGetNextTokenAux, if_pos hlt, pickRule, hp]
  rfl

/-- Witness for C10: the rule `(a)*` (which matches only `""` against input `"b"`)
emits token type 1; the scanner returns an empty-lexeme success token and stays at
offset 0. -/
theorem empty_longest_match_no_progress_witness :
    ∃ t tr, tryGetNextTokenAux 10 natOpts (fun _ => ())
        [("r", ⟨.grouping (.literal 'a') .NONE_OR_MORE, some 1, none⟩)] ['b'] 0
      = some (.ok ⟨t, applyTransformer tr [], (calculate 0 ['b']).1 + 1,
          (calculate 0 ['b']).2, ()⟩, 0) :=
  empty_longest_match_no_progress 10 natOpts (fun _ => ())
    [("r", ⟨.grouping (.literal 'a') .NONE_OR_MORE, some 1, none⟩)] ['b'] 0
    (by decide)
    (by
      intro p hp t ht
      rw [List.mem_singleton] at hp
      subst hp
      exact ⟨[[]], by decide, rfl⟩)
    ⟨("r", ⟨.grouping (.literal 'a') .NONE_OR_MORE, some 1, none⟩), by simp,
      by decide, [[]], by decide, by decide⟩

/-! ### C9: a generated scanner observes later rule registrations -/

/-- Counterexample to C9: an engine generated from `c9sys1` (which knows only rule
`a`) fails on input `"b"`; after the *later* registration of rule `b` (producing
`c9sys2` in the same generator, whose environment `Map` the engine aliases), the
very same engine's next-token call succeeds with the new rule's token — the
already-generated scanner's results are affected by the later registration. -/
theorem generated_scanner_sees_later_rules_cex :
    slexAddRule 20 20 asciiClasses c9sys0 "aRule" ['a'] (some 1) none = some c9sys1
    ∧ slexAddRule 20 20 asciiClasses c9sys1 "bRule" ['b'] (some 2) none = some c9sys2
    ∧ engineTryNext 3 10 c9sys1 (generate c9sys1 ['b'] (fun _ => ())) 0
        = some (.err ⟨1, 0, mkReason 'b' 1 0⟩, 1)
    ∧ engineTryNext 3 10 c9sys2 (generate c9sys1 ['b'] (fun _ => ())) 0
        = some (.ok ⟨2, ['b'], 1, 0, ()⟩, 1) :=
  ⟨rfl, rfl, by decide, by decide⟩

/-- C9 amended: later rule registrations *are* observed by an already-generated
scanner — `generate` hands the engine the generator's live environment `Map`, so a
successful `addRule` extends the very environment every subsequent call of the
engine selects rules from (no snapshot is taken). -/
theorem generated_scanner_sees_later_rules {T : Type u} {M : Type v} [DecidableEq T]
    (lexFuel parseFuel : Nat) (cc : CharClasses) (s : SlexSys T M) (name : String)
    (expression : List Char) (emit : Option T) (tr : Option Transformer)
    (toks : List RegexToken) (root : RegexNode) (i : Nat)
    (hlex : lexGo cc lexFuel expression 0 [] = some toks)
    (hparse : parseRegex parseFuel toks 0 = some (.ok (root, i))) :
    slexAddRule lexFuel parseFuel cc s name expression emit tr
      = some ⟨s.options, envSet s.environment name ⟨root, emit, tr⟩⟩
    ∧ ∀ (lf mf : Nat) (e : GeneratedEngine M) (idx : Nat),
        engineTryNext lf mf ⟨s.options, envSet s.environment name ⟨root, emit, tr⟩⟩ e idx
          = tryGetNextTokenPub lf mf s.options e.metadataGenerator
              (envSet s.environment name ⟨root, emit, tr⟩) e.input idx := by
  constructor
  · simp only [slexAddRule, hlex, hparse]
  · intro lf mf e idx
    rfl

/-- Witness for the amended C9 at the concrete `b`-rule registration of the
counterexample. -/
theorem generated_scanner_sees_later_rules_witness :
    slexAddRule 20 20 asciiClasses c9sys1 "bRule" ['b'] (some 2) none
      = some ⟨c9sys1.options, envSet c9sys1.environment "bRule" ⟨.literal 'b', some 2, none⟩⟩
    ∧ engineTryNext 3 10
        ⟨c9sys1.options, envSet c9sys1.environment "bRule" ⟨.literal 'b', some 2, none⟩⟩
        (generate c9sys1 ['b'] (fun _ => ())) 0
      = tryGetNextTokenPub 3 10 c9sys1.options (fun _ => ())
          (envSet c9sys1.environment "bRule" ⟨.literal 'b', some 2, none⟩) ['b'] 0 := by
  have h := generated_scanner_sees_later_rules 20 20 asciiClasses c9sys1 "bRule" ['b']
    (some 2) none [⟨.LITERAL, ['b']⟩] (.literal 'b') 1 (by rfl) (by rfl)
  exact ⟨h.1, h.2 3 10 (generate c9sys1 ['b'] (fun _ => ())) 0⟩
